import Mathlib

/-!
Verification of the DOM text-extraction and Markdown-reconstruction pipeline
of the uicontext repository (apps/extension/src/text/extraction.ts).

The file shallowly embeds the pipeline in Lean:
* strings are Lean `String`s manipulated through their `List Char` data; the
  model's character alphabet for whitespace is {space, tab, newline, U+00A0},
  which is the set the source's regular expressions distinguish on the inputs
  the pipeline handles (JS `\s` further contains `\r`, `\f`, `\v` and rare
  Unicode spaces; strings of the model do not contain those characters);
* a DOM subtree is the inductive `Dom`, a first-child / next-sibling encoding
  of a forest of element, text and comment nodes; an element carries its
  tag name, whether it is an HTMLElement, its `hidden` flag, its `aria-hidden`
  attribute and its computed `display`/`visibility` (the ambient
  `window.getComputedStyle` is modelled as data on the element), plus its
  rendered `innerText`;
* the extraction functions are translated line by line from the source; the
  tree walk is realised by first enumerating every text node in document
  order together with its ancestor context (`collect`) and then folding the
  source's loop body over that list.

The source file contains two variants of the pipeline separated by a document
separator: the earlier one (plain paragraphs plus site adapters, here the
`V1` definitions) and the later one (block segments and Markdown formatting,
here the unsuffixed definitions).
-/

set_option maxRecDepth 8000

/-! ## Character and string primitives -/

/-- JS whitespace restricted to the model's alphabet (after the U+00A0
replacement performed by `normalizeWhitespace` no other whitespace remains). -/
def isWSChar (c : Char) : Bool :=
  c = ' ' || c = '\t' || c = '\n'

/-- The character class `[ \t]` of the source's regular expressions. -/
def isSpaceTab (c : Char) : Bool :=
  c = ' ' || c = '\t'

/-- `value.replace(/\u00a0/g, " ")`: the U+00A0 (no-break space) to plain
space replacement. -/
def nbspToSpace (c : Char) : Char :=
  if c = '\u00A0' then ' ' else c

/-- `replace(/[ \t]+/g, " ")`: collapse every maximal run of spaces/tabs to a
single space.  The boolean flag records whether the previous character was a
space or tab (i.e. we are inside a run that has already been emitted). -/
def collapseSTAux : Bool → List Char → List Char
  | _, [] => []
  | inRun, c :: cs =>
    if isSpaceTab c then
      if inRun then collapseSTAux true cs else ' ' :: collapseSTAux true cs
    else c :: collapseSTAux false cs

/-- `replace(/\s*\n\s*/g, "\n")`: every maximal whitespace run that contains a
newline collapses to one newline.  `pend` is the pending whitespace run not yet
known to contain a newline. -/
def collapseNLAux : List Char → List Char → List Char
  | pend, [] => if pend.contains '\n' then ['\n'] else pend
  | pend, c :: cs =>
    if isWSChar c then collapseNLAux (pend ++ [c]) cs
    else
      (if pend.contains '\n' then ['\n'] else pend) ++ c :: collapseNLAux [] cs

/-- `String.prototype.trim()` on the model's alphabet. -/
def trimWS (l : List Char) : List Char :=
  ((l.dropWhile isWSChar).reverse.dropWhile isWSChar).reverse

/-- `normalizeWhitespace` from the source:
`value.replace(/\u00a0/g, " ").replace(/[ \t]+/g, " ").replace(/\s*\n\s*/g, "\n").trim()`. -/
def normChars (l : List Char) : List Char :=
  trimWS (collapseNLAux [] (collapseSTAux false (l.map nbspToSpace)))

/-- `normalizeWhitespace` as a `String → String` function. -/
def normalizeWhitespace (s : String) : String :=
  String.mk (normChars s.data)

/-- `replace(/\n[ \t]+/g, "\n")`: drop the spaces/tabs that immediately follow
a newline.  The flag records whether the previously kept character was a
newline (or we are still inside the run following one). -/
def stripAfterNLAux : Bool → List Char → List Char
  | _, [] => []
  | afterNL, c :: cs =>
    if c = '\n' then '\n' :: stripAfterNLAux true cs
    else if afterNL && isSpaceTab c then stripAfterNLAux true cs
    else c :: stripAfterNLAux false cs

/-- `replace(/\n[ \t]+/g, "\n")`. -/
def stripSTAfterNL (l : List Char) : List Char :=
  stripAfterNLAux false l

/-- `replace(/[ \t]+\n/g, "\n")`: drop the spaces/tabs that immediately
precede a newline; realised by the mirrored scan on the reversed list. -/
def stripSTBeforeNL (l : List Char) : List Char :=
  (stripAfterNLAux false l.reverse).reverse

/-- `buffer.replace(/[ \t]+$/, "")`. -/
def dropTrailingST (l : List Char) : List Char :=
  (l.reverse.dropWhile isSpaceTab).reverse

/-- Does the buffer end with the given character (`buffer.endsWith(c)`)? -/
def endsWithChar (l : List Char) (c : Char) : Bool :=
  l.getLast? = some c

/-- `text.split("\n")` (JS semantics: the empty string splits to `[""]`). -/
def splitNLChars : List Char → List (List Char)
  | [] => [[]]
  | c :: cs =>
    if c = '\n' then [] :: splitNLChars cs
    else
      match splitNLChars cs with
      | [] => [[c]]
      | l :: ls => (c :: l) :: ls

/-- `text.split("\n")` on strings. -/
def splitNL (s : String) : List String :=
  (splitNLChars s.data).map String.mk

/-- `array.join("\n")`. -/
def joinNL : List String → String
  | [] => ""
  | [s] => s
  | s :: s2 :: rest => s ++ "\n" ++ joinNL (s2 :: rest)

/-- `array.join("\n\n")` (used by the earlier pipeline variant). -/
def join2NL : List String → String
  | [] => ""
  | [s] => s
  | s :: s2 :: rest => s ++ "\n\n" ++ join2NL (s2 :: rest)

/-- `s.startsWith(p)`. -/
def strStartsWith (s p : String) : Bool :=
  p.data.isPrefixOf s.data

/-- `s.endsWith(p)`. -/
def strEndsWith (s p : String) : Bool :=
  p.data.isSuffixOf s.data

/-- Substring containment (`s.includes(needle)`). -/
def containsSub (needle : List Char) : List Char → Bool
  | [] => needle.isEmpty
  | c :: cs => needle.isPrefixOf (c :: cs) || containsSub needle cs

/-- ASCII lower-casing of one character (tag names are ASCII; this is what
`String.prototype.toLowerCase()` does on them). -/
def charLower (c : Char) : Char :=
  if 'A' ≤ c && c ≤ 'Z' then Char.ofNat (c.toNat + 32) else c

/-- `tagName.toLowerCase()` for ASCII tag names. -/
def strToLower (s : String) : String :=
  String.mk (s.data.map charLower)

/-- `String.prototype.trim()` on strings. -/
def trimStr (s : String) : String :=
  String.mk (trimWS s.data)

example : normalizeWhitespace (" Hello \u00A0 ") = "Hello" := by decide
example : normalizeWhitespace ("a \n b") = "a\nb" := by decide
example : strToLower ("DIV") = "div" := by decide
example : splitNL ("a\nb") = ["a", "b"] := by decide
example : ("ab").data = ['a', 'b'] := by decide

/-! ## The DOM model -/

/-- The data of one element node.  `isHTML` models `instanceof HTMLElement`;
`display` and `visibility` model `window.getComputedStyle(element)` (the
ambient computed style is data of the model); `innerText` models the rendered
text property (only meaningful for HTML elements). -/
structure ElemProps where
  tag : String
  isHTML : Bool
  hidden : Bool
  ariaHidden : Option String
  display : String
  visibility : String
  innerText : String
deriving DecidableEq, Repr

/-- An HTML element with default (visible) properties. -/
def mkEl (tag : String) : ElemProps :=
  { tag := tag, isHTML := true, hidden := false, ariaHidden := none,
    display := "block", visibility := "visible", innerText := "" }

/-- A DOM forest in first-child / next-sibling form: `elem props children
siblings`, `text data siblings`, `comment siblings`, `nil` (end of a sibling
list).  This encoding keeps every recursion structural. -/
inductive Dom where
  | nil : Dom
  | elem : ElemProps → Dom → Dom → Dom
  | text : String → Dom → Dom
  | comment : Dom → Dom
deriving DecidableEq, Repr

/-- `node.textContent` of a forest: concatenation of all descendant text node
data in document order (comments contribute nothing). -/
def textContentF : Dom → List Char
  | .nil => []
  | .elem _ kids sibs => textContentF kids ++ textContentF sibs
  | .text s sibs => s.data ++ textContentF sibs
  | .comment sibs => textContentF sibs

/-- `isElementHidden` from the source: non-HTML elements are never classified
hidden; otherwise the `hidden` property, `aria-hidden="true"`, computed
`display: none` and computed `visibility: hidden` are the hidden signals. -/
def isElementHidden (e : ElemProps) : Bool :=
  if !e.isHTML then false
  else if e.hidden then true
  else if e.ariaHidden = some ("true") then true
  else if e.display = "none" || e.visibility = "hidden" then true
  else false

/-- `isNodeVisible` from the source, expressed on the node's parent chain
(`parentNode`, grandparent, ...; `none` entries are non-element nodes such as
the document).  The walk stops at the first non-element and fails open. -/
def isNodeVisible : List (Option ElemProps) → Bool
  | [] => true
  | some e :: rest => if isElementHidden e then false else isNodeVisible rest
  | none :: _ => true

/-- The block-level tag allow-list `BLOCK_TAGS`. -/
def BLOCK_TAGS : List String :=
  ["article", "aside", "blockquote", "div", "dd", "dl", "dt", "figcaption",
   "figure", "footer", "form", "header", "h1", "h2", "h3", "h4", "h5", "h6",
   "li", "main", "nav", "ol", "p", "pre", "section", "table", "tbody", "td",
   "th", "thead", "tr", "ul"]

/-- `BLOCK_TAGS.has` on an already lower-cased tag. -/
def isBlockTag (tag : String) : Bool :=
  BLOCK_TAGS.contains tag

/-- One parent/child step of a node's ancestor context: the parent node
(`none` for a non-element parent, which inside the walked subtree never
occurs) and the child's preceding siblings, nearest first, each stored as a
detached head node (its own subtree, without its siblings). -/
structure Step where
  parent : Option ElemProps
  before : List Dom
deriving DecidableEq, Repr

/-- A text node produced by the tree walk: its raw `nodeValue`, its ancestor
context inside the walked subtree (first entry: the node's own parent step;
last entry's parent is the extraction root) and its path of child indices from
the root (the model's notion of node identity). -/
structure TextHit where
  raw : String
  ctx : List Step
  path : List Nat
deriving DecidableEq, Repr

/-- Enumerate all text nodes of a forest in document (pre-)order with their
contexts.  `parentProps` is the element the forest is the child list of,
`pctx`/`ppath` that element's own context and path, `before` the already
visited preceding siblings (nearest first), `i` the child index. -/
def collect (parentProps : ElemProps) (pctx : List Step) (ppath : List Nat) :
    Dom → List Dom → Nat → List TextHit
  | .nil, _, _ => []
  | .elem e kids sibs, before, i =>
    collect e ({ parent := some parentProps, before := before } :: pctx)
        (ppath ++ [i]) kids [] 0
      ++ collect parentProps pctx ppath sibs (Dom.elem e kids .nil :: before) (i + 1)
  | .text s sibs, before, i =>
    { raw := s, ctx := { parent := some parentProps, before := before } :: pctx,
      path := ppath ++ [i] }
      :: collect parentProps pctx ppath sibs (Dom.text s .nil :: before) (i + 1)
  | .comment sibs, before, i =>
    collect parentProps pctx ppath sibs (Dom.comment .nil :: before) (i + 1)

/-- The tree walker's `acceptNode` filter: the node is a text node by
construction; it is accepted when its normalized `nodeValue` is non-empty and
`isNodeVisible` holds for its parent chain (the in-tree ancestors followed by
the chain above the extraction root). -/
def acceptHit (above : List Step) (h : TextHit) : Bool :=
  !(normChars h.raw.data).isEmpty
    && isNodeVisible (h.ctx.map Step.parent ++ above.map Step.parent)

/-! ## Block segmentation -/

/-- The identity and context of the current block element
(`currentBlock` in the source).  `path` is the element's child-index path from
the extraction root (paths are the model's element identity: `block !==
currentBlock` becomes path inequality); `props` its data; `inSteps` its own
ancestor context inside the subtree (empty exactly when the block is the
extraction root itself). -/
structure BlockData where
  path : List Nat
  props : ElemProps
  inSteps : List Step
deriving DecidableEq, Repr

/-- `findBlockAncestor(node, root)`: climb `parentElement`s until a tag of the
allow-list or the root; `current ?? root` at the end makes the root the final
fallback, so the result is never null.  `ctx` is the node's in-tree context
(last entry's parent is the root, which the source's loop never tag-checks),
`path` the node's path. -/
def findBlock : List Step → List Nat → ElemProps → BlockData
  | [], _, root => { path := [], props := root, inSteps := [] }
  | [_], _, root => { path := [], props := root, inSteps := [] }
  | s :: rest, path, root =>
    match s.parent with
    | some e =>
      if isBlockTag (strToLower e.tag) then
        { path := path.dropLast, props := e, inSteps := rest }
      else findBlock rest path.dropLast root
    | none => findBlock rest path.dropLast root

/-- Scan one level's preceding siblings, nearest first
(the inner `while (sibling)` loop of `hasExplicitLineBreakBefore`):
`some true` for a `<br>`, `some false` for a text-bearing sibling,
`none` when the level is exhausted without a verdict. -/
def siblingScan : List Dom → Option Bool
  | [] => none
  | d :: rest =>
    match d with
    | .elem e kids _ =>
      if strToLower e.tag = "br" then some true
      else if !(normChars (textContentF kids)).isEmpty then some false
      else siblingScan rest
    | .text s _ =>
      if !(normChars s.data).isEmpty then some false else siblingScan rest
    | .comment _ => siblingScan rest
    | .nil => siblingScan rest

/-- `hasExplicitLineBreakBefore(node, root)`: walk from the node up to (but
excluding) the root, scanning each level's preceding siblings. -/
def hasExplicitLineBreakBefore : List Step → Bool
  | [] => false
  | s :: rest =>
    match siblingScan s.before with
    | some b => b
    | none => hasExplicitLineBreakBefore rest

/-- `listInfo` of a list-item segment. -/
structure ListInfo where
  depth : Nat
  ordered : Bool
  index : Option Nat
deriving DecidableEq, Repr

/-- A flushed segment. -/
structure Segment where
  text : String
  blockTag : Option String
  listInfo : Option ListInfo
deriving DecidableEq, Repr

/-- The `ancestor.parentElement` climb: successive parents as long as they are
elements (the chain stops at the first non-element). -/
def takeElemParents : List Step → List ElemProps
  | [] => []
  | s :: rest =>
    match s.parent with
    | some e => e :: takeElemParents rest
    | none => []

/-- The ancestor elements visited by `computeListInfo`'s `while (ancestor &&
ancestor !== root)` loop: for a block strictly inside the subtree the climb
stops at the root (the last entry of `inSteps`), for the root block itself it
climbs the chain above the root until a non-element. -/
def ancWalk (bd : BlockData) (above : List Step) : List ElemProps :=
  match bd.inSteps with
  | [] => takeElemParents above
  | steps => takeElemParents steps.dropLast

/-- Is this list of element properties headed by a `ul`/`ol` tag test. -/
def isListTag (e : ElemProps) : Bool :=
  strToLower e.tag = "ul" || strToLower e.tag = "ol"

/-- Count of `<li>` element children in a (nearest-first) sibling list; used
for the `indexOf` position among the parent's `li` children. -/
def countLiBefore (l : List Dom) : Nat :=
  l.countP (fun d =>
    match d with
    | .elem e _ _ => strToLower e.tag = "li"
    | _ => false)

/-- The step holding the block's immediate parent: inside the subtree it is
the head of `inSteps`; for the root block it is the first step above the
root. -/
def parentStepOf (bd : BlockData) (above : List Step) : Option Step :=
  match bd.inSteps with
  | s :: _ => some s
  | [] => above.head?

/-- `computeListInfo(block)` from the source: `undefined` unless the block is
an `li`; depth counts `ul`/`ol` ancestors on the climb (minimum 1), `ordered`
is set only when the first climbed ancestor (`ancestor === parent`) is an
`ol`, and `index` is the 1-based position among the parent's `li` element
children when the parent element is an `ol`. -/
def computeListInfo (bd : BlockData) (above : List Step) : Option ListInfo :=
  if strToLower bd.props.tag = "li" then
    let walk := ancWalk bd above
    let depth0 := walk.countP isListTag
    let depth := if depth0 = 0 then 1 else depth0
    let ordered :=
      match walk with
      | e :: _ => strToLower e.tag = "ol"
      | [] => false
    let index : Option Nat :=
      match parentStepOf bd above with
      | some s =>
        match s.parent with
        | some p =>
          if strToLower p.tag = "ol" then some (countLiBefore s.before + 1)
          else none
        | none => none
      | none => none
    some { depth := depth, ordered := ordered, index := index }
  else none

/-- The mutable state of the walker loop. -/
structure WalkSt where
  segments : List Segment
  buffer : List Char
  currentBlock : Option BlockData
deriving DecidableEq, Repr

/-- `flush()` from the segment-based walker: trim the buffer; if empty only
reset it, otherwise strip spaces/tabs around newlines and push a segment
carrying the current block's lower-cased tag and list info. -/
def flushW (above : List Step) (st : WalkSt) : WalkSt :=
  let trimmed := trimWS st.buffer
  if trimmed.isEmpty then { st with buffer := [] }
  else
    { st with
      segments := st.segments ++
        [{ text := String.mk (stripSTAfterNL (stripSTBeforeNL trimmed)),
           blockTag := st.currentBlock.map (fun bd => strToLower bd.props.tag),
           listInfo := st.currentBlock.bind (fun bd => computeListInfo bd above) }],
      buffer := [] }

/-- One iteration of the walker's `while (walker.nextNode())` loop body. -/
def stepW (root : ElemProps) (above : List Step) (st : WalkSt) (h : TextHit) :
    WalkSt :=
  let text := normChars h.raw.data
  if text.isEmpty then st
  else
    let bd := findBlock h.ctx h.path root
    let st1 :=
      match st.currentBlock with
      | some cb =>
        if cb.path = bd.path then
          if hasExplicitLineBreakBefore h.ctx then
            let buf := dropTrailingST st.buffer
            { st with
              buffer := if endsWithChar buf '\n' then buf else buf ++ ['\n'] }
          else st
        else { flushW above st with currentBlock := some bd }
      | none => { flushW above st with currentBlock := some bd }
    let buf := st1.buffer
    let buf :=
      if !buf.isEmpty && !endsWithChar buf '\n' && !endsWithChar buf ' ' then
        buf ++ [' ']
      else buf
    { st1 with buffer := buf ++ text }

/-- The ordered segment sequence produced by one walk: fold the loop body over
the accepted text nodes and flush the final buffer. -/
def walkSegments (root : ElemProps) (kids : Dom) (above : List Step) :
    List Segment :=
  let hits := (collect root [] [] kids [] 0).filter (acceptHit above)
  (flushW above (hits.foldl (stepW root above)
    { segments := [], buffer := [], currentBlock := none })).segments

/-! ## Markdown formatting and the fallback ladder -/

/-- `formatSegment` from the source. -/
def formatSegment (seg : Segment) : String :=
  match seg.blockTag with
  | none => seg.text
  | some tag =>
    if tag = "h1" then
      if strStartsWith seg.text ("# ") then seg.text else "# " ++ seg.text
    else if tag = "h2" then
      if strStartsWith seg.text ("## ") then seg.text else "## " ++ seg.text
    else if tag = "h3" then
      if strStartsWith seg.text ("### ") then seg.text else "### " ++ seg.text
    else if tag = "h4" then
      if strStartsWith seg.text ("#### ") then seg.text
      else "#### " ++ seg.text
    else if tag = "h5" then
      if strStartsWith seg.text ("##### ") then seg.text
      else "##### " ++ seg.text
    else if tag = "h6" then
      if strStartsWith seg.text ("###### ") then seg.text
      else "###### " ++ seg.text
    else if tag = "blockquote" then
      joinNL ((splitNL seg.text).map (fun line =>
        if strStartsWith line ("> ") then line else "> " ++ line))
    else if tag = "pre" || tag = "code" then
      let fence := if containsSub ("```").data seg.text.data then "~~~"
        else "```"
      fence ++ "\n" ++ seg.text ++ "\n" ++ fence
    else if tag = "dt" then "**" ++ seg.text ++ "**"
    else if tag = "dd" then seg.text
    else if tag = "li" then
      let depth := max 1 ((seg.listInfo.map ListInfo.depth).getD 1)
      let indent := String.mk (List.replicate (2 * (depth - 1)) ' ')
      match seg.listInfo with
      | some li =>
        if li.ordered then indent ++ Nat.repr (li.index.getD 1) ++ ". " ++ seg.text
        else indent ++ "- " ++ seg.text
      | none => indent ++ "- " ++ seg.text
    else seg.text

/-- `shouldInsertBlankLine(previous, next)` from the source. -/
def shouldInsertBlankLine (previous : Option Segment) (next : Segment) : Bool :=
  match previous with
  | none => false
  | some prev =>
    if prev.blockTag = some ("li") && next.blockTag = some ("li") then
      let previousDepth := (prev.listInfo.map ListInfo.depth).getD 1
      let nextDepth := (next.listInfo.map ListInfo.depth).getD 1
      previousDepth != nextDepth
    else if prev.blockTag = some ("blockquote")
        && next.blockTag = some ("blockquote") then false
    else true

/-- `String.prototype.trimEnd()`. -/
def trimEndStr (s : String) : String :=
  String.mk (s.data.reverse.dropWhile isWSChar).reverse

/-- The output-assembly `segments.forEach` loop: format each segment, drop the
ones that are empty after `trimEnd`, push a blank line (an empty output entry)
when required, then push the formatted text.  `prev` is `segments[index - 1]`,
the previous segment of the sequence whether or not it produced output. -/
def assembleAux (prev : Option Segment) (out : List String) :
    List Segment → List String
  | [] => out
  | seg :: rest =>
    let formatted := trimEndStr (formatSegment seg)
    if formatted = "" then assembleAux (some seg) out rest
    else
      let out :=
        if !out.isEmpty && shouldInsertBlankLine prev seg then
          out ++ ["", formatted]
        else out ++ [formatted]
      assembleAux (some seg) out rest

/-- `extractWithTreeWalker(root)` of the segment-based variant:
`output.join("\n")` over the assembled formatted segments. -/
def extractWithTreeWalker (root : ElemProps) (kids : Dom) (above : List Step) :
    String :=
  joinNL (assembleAux none [] (walkSegments root kids above))

/-- The strategy tag of an extraction result. -/
inductive Strategy where
  | site_adapter
  | dom_tree_walker
  | inner_text
  | text_content
deriving DecidableEq, Repr

/-- The `ExtractionResult` record. -/
structure ExtractionResult where
  text : String
  strategy : Strategy
  adapter : Option String
deriving DecidableEq, Repr

/-- `extractTextContent(root)` of the segment-based variant (the fallback
ladder): tree walker if its trimmed text is non-empty, else `innerText` if
the root is an HTMLElement with non-empty normalized `innerText`, else the
normalized `textContent` regardless of emptiness.  A total function: it
returns exactly one result for every input. -/
def extractTextContent (root : ElemProps) (kids : Dom) (above : List Step) :
    ExtractionResult :=
  if (trimWS (extractWithTreeWalker root kids above).data).isEmpty = false then
    { text := extractWithTreeWalker root kids above,
      strategy := .dom_tree_walker, adapter := none }
  else if root.isHTML then
    if (normChars root.innerText.data).isEmpty = false then
      { text := String.mk (normChars root.innerText.data),
        strategy := .inner_text, adapter := none }
    else
      { text := String.mk (normChars (textContentF kids)),
        strategy := .text_content, adapter := none }
  else
    { text := String.mk (normChars (textContentF kids)),
      strategy := .text_content, adapter := none }

/-! ## The earlier pipeline variant (plain paragraphs and site adapters) -/

/-- The mutable state of the earlier variant's walker loop. -/
structure WalkStV1 where
  paragraphs : List String
  buffer : List Char
  lastBlock : Option (List Nat)
deriving DecidableEq, Repr

/-- `flush()` of the earlier variant: push the trimmed,
newline-stripped buffer as one paragraph. -/
def flushV1 (st : WalkStV1) : WalkStV1 :=
  let trimmed := trimWS st.buffer
  if trimmed.isEmpty then { st with buffer := [] }
  else
    { st with
      paragraphs := st.paragraphs ++
        [String.mk (stripSTAfterNL (stripSTBeforeNL trimmed))],
      buffer := [] }

/-- One iteration of the earlier variant's walker loop body (identical buffer
logic; the block is tracked by identity only). -/
def stepV1 (root : ElemProps) (st : WalkStV1) (h : TextHit) : WalkStV1 :=
  let text := normChars h.raw.data
  if text.isEmpty then st
  else
    let bd := findBlock h.ctx h.path root
    let st1 :=
      match st.lastBlock with
      | some lb =>
        if lb = bd.path then
          if hasExplicitLineBreakBefore h.ctx then
            let buf := dropTrailingST st.buffer
            { st with
              buffer := if endsWithChar buf '\n' then buf else buf ++ ['\n'] }
          else st
        else { flushV1 st with lastBlock := some bd.path }
      | none => { flushV1 st with lastBlock := some bd.path }
    let buf := st1.buffer
    let buf :=
      if !buf.isEmpty && !endsWithChar buf '\n' && !endsWithChar buf ' ' then
        buf ++ [' ']
      else buf
    { st1 with buffer := buf ++ text }

/-- `extractWithTreeWalker(root)` of the earlier variant:
`paragraphs.join("\n\n")`. -/
def extractWithTreeWalkerV1 (root : ElemProps) (kids : Dom)
    (above : List Step) : String :=
  let hits := (collect root [] [] kids [] 0).filter (acceptHit above)
  join2NL (flushV1 (hits.foldl (stepV1 root)
    { paragraphs := [], buffer := [], lastBlock := none })).paragraphs

/-- The fallback ladder of the earlier variant's `extractTextContent`, i.e.
everything after the site-adapter attempt (tree walker, then `innerText`,
then `textContent`). -/
def extractLadderV1 (root : ElemProps) (kids : Dom) (above : List Step) :
    ExtractionResult :=
  if (trimWS (extractWithTreeWalkerV1 root kids above).data).isEmpty = false then
    { text := extractWithTreeWalkerV1 root kids above,
      strategy := .dom_tree_walker, adapter := none }
  else if root.isHTML then
    if (normChars root.innerText.data).isEmpty = false then
      { text := String.mk (normChars root.innerText.data),
        strategy := .inner_text, adapter := none }
    else
      { text := String.mk (normChars (textContentF kids)),
        strategy := .text_content, adapter := none }
  else
    { text := String.mk (normChars (textContentF kids)),
      strategy := .text_content, adapter := none }

/-- The registered site adapters, reduced to the data the selection logic
reads: adapter name and hostname suffix list.  The adapters' `extract`
functions read ambient document state the model does not carry, so one
adapter invocation is modelled by its observable outcome (`AdapterOutcome`
below). -/
def SITE_ADAPTERS : List (String × List String) :=
  [("reddit", ["reddit.com"]),
   ("hacker-news", ["news.ycombinator.com"]),
   ("twitter", ["twitter.com", "x.com"])]

/-- `selectAdapter(hostname)`: the first registered adapter one of whose
domains the hostname ends with. -/
def selectAdapter (hostname : String) : Option String :=
  (SITE_ADAPTERS.find? (fun a => a.2.any (fun d => strEndsWith hostname d))).map
    (fun a => a.1)

/-- The observable outcome of one `adapter.extract(root)` call: it either
throws, or returns `null`, or returns a string. -/
inductive AdapterOutcome where
  | throws
  | returns : Option String → AdapterOutcome
deriving DecidableEq, Repr

/-- `trySiteAdapter(root)`: `null` when no adapter matches the hostname;
otherwise an adapter-tagged result only when the call neither throws nor
yields a null/blank text (`if (text && text.trim())`); every other outcome
(including a thrown error, caught locally) is `null`. -/
def trySiteAdapter (hostname : String) (outcome : AdapterOutcome) :
    Option ExtractionResult :=
  match selectAdapter hostname with
  | none => none
  | some name =>
    match outcome with
    | .throws => none
    | .returns none => none
    | .returns (some t) =>
      if !t.isEmpty && !(trimWS t.data).isEmpty then
        some { text := t, strategy := .site_adapter, adapter := some name }
      else none

/-- `extractTextContent(root)` of the earlier variant: the adapter result when
present, otherwise the fallback ladder. -/
def extractTextContentV1 (hostname : String) (outcome : AdapterOutcome)
    (root : ElemProps) (kids : Dom) (above : List Step) : ExtractionResult :=
  match trySiteAdapter hostname outcome with
  | some r => r
  | none => extractLadderV1 root kids above

/-! ## Claim-side specification definitions

These definitions follow the words of the specification/claims (not the
source); the theorems below compare them with the source-derived functions. -/

/-- The four hidden signals named by the specification for an ancestor
element (`hidden` truthy, `aria-hidden="true"`, computed `display: none`,
computed `visibility: hidden`) — without the HTMLElement restriction the
source applies first. -/
def specHiddenSignal (e : ElemProps) : Bool :=
  e.hidden || e.ariaHidden = some ("true") || e.display = "none"
    || e.visibility = "hidden"

/-- The ancestors strictly between a block and the extraction root (the
block's context minus its last entry, which is the root itself). -/
def betweenRootAncestors (bd : BlockData) : List ElemProps :=
  bd.inSteps.dropLast.filterMap Step.parent

/-- Claim C4's depth clause: the count of `ul`/`ol` ancestors strictly
between the `li` and the root, with a minimum of 1. -/
def specC4Depth (bd : BlockData) : Nat :=
  max 1 ((betweenRootAncestors bd).countP isListTag)

/-- Claim C4's ordered clause as stated: the `li`'s immediate parent element
is an `ol`. -/
def specC4OrderedOrig (bd : BlockData) (above : List Step) : Bool :=
  match parentStepOf bd above with
  | some s =>
    match s.parent with
    | some p => strToLower p.tag = "ol"
    | none => false
  | none => false

/-- The amended ordered clause: the immediate parent is an `ol` that is not
the extraction root itself (the root is the parent exactly when the block's
in-tree context is the single root step). -/
def specC4Ordered (bd : BlockData) (above : List Step) : Bool :=
  specC4OrderedOrig bd above && !(bd.inSteps.length = 1)

/-- Claim C4's index clause: the 1-based position of the `li` among the `li`
element children of its immediate parent when that parent is an `ol`, else
null (the preceding-sibling count determines the position). -/
def specC4Index (bd : BlockData) (above : List Step) : Option Nat :=
  match parentStepOf bd above with
  | some s =>
    match s.parent with
    | some p =>
      if strToLower p.tag = "ol" then some (countLiBefore s.before + 1)
      else none
    | none => none
  | none => none

/-- `#` repeated `L` times. -/
def hashMarks (L : Nat) : String :=
  String.mk (List.replicate L '#')

/-- Claim C6's heading rule as stated: output `L` hash characters, a space
and the text, except that the prefixing is skipped when the text already
starts with that many hash characters (no space required). -/
def specC6HeadingFormat (L : Nat) (t : String) : String :=
  if (List.replicate L '#').isPrefixOf t.data then t
  else hashMarks L ++ " " ++ t

/-- Claim C7's blockquote rule as stated: prefix every line of the text with
`"> "` (unconditionally). -/
def specC7QuoteFormat (t : String) : String :=
  joinNL ((splitNL t).map (fun line => "> " ++ line))

/-! ## Concrete inputs used by the theorems -/

/-- The root of the spec's end-to-end example. -/
def exDivC2 : ElemProps := mkEl ("div")

/-- `<h1>Title</h1><p>Hello <br/>world</p><ul><li>A</li><li>B</li></ul>`,
the children of the end-to-end example's root, all visible. -/
def exKidsC2 : Dom :=
  .elem (mkEl ("h1")) (.text ("Title") .nil)
    (.elem (mkEl ("p"))
      (.text ("Hello ") (.elem (mkEl ("br")) .nil (.text ("world") .nil)))
      (.elem (mkEl ("ul"))
        (.elem (mkEl ("li")) (.text ("A") .nil)
          (.elem (mkEl ("li")) (.text ("B") .nil) .nil))
        .nil))

/-- An extraction root that is itself an `<ol>`. -/
def exOlRoot : ElemProps := mkEl ("ol")

/-- `<li>A</li>`, the children of the `<ol>` root. -/
def exOlKids : Dom := .elem (mkEl ("li")) (.text ("A") .nil) .nil

/-- A `<div>` root holding `<ol><li>A</li><li>B</li><li>C</li></ol>`. -/
def exDivOlRoot : ElemProps := mkEl ("div")

/-- The three-item ordered list under the `<div>` root. -/
def exDivOlKids : Dom :=
  .elem (mkEl ("ol"))
    (.elem (mkEl ("li")) (.text ("A") .nil)
      (.elem (mkEl ("li")) (.text ("B") .nil)
        (.elem (mkEl ("li")) (.text ("C") .nil) .nil)))
    .nil

/-- The in-tree context of the first `<li>` of `exDivOlKids` (its parent is
the `<ol>`, whose own parent is the root `<div>`). -/
def exDivOlLiBD : BlockData :=
  { path := [0, 0], props := mkEl ("li"),
    inSteps := [{ parent := some (mkEl ("ol")), before := [] },
                { parent := some exDivOlRoot, before := [] }] }

/-- An SVG element (not an HTMLElement) whose computed display is `none`. -/
def exSvgHidden : ElemProps :=
  { tag := "svg", isHTML := false, hidden := false, ariaHidden := none,
    display := "none", visibility := "visible", innerText := "" }

/-- `<svg style="display:none"><text-node "x"></svg>` under a `<div>` root. -/
def exSvgKids : Dom := .elem exSvgHidden (.text ("x") .nil) .nil

/-- A hidden HTML `<div>` (the `hidden` attribute set). -/
def exHiddenDiv : ElemProps :=
  { tag := "div", isHTML := true, hidden := true, ariaHidden := none,
    display := "block", visibility := "visible", innerText := "" }

/-- A text node whose only in-tree ancestor is the hidden `<div>`. -/
def exHiddenHit : TextHit :=
  { raw := "x", ctx := [{ parent := some exHiddenDiv, before := [] }],
    path := [0] }

/-! ## Helper lemmas -/

lemma mkStr_eq_empty_iff (l : List Char) : String.mk l = "" ↔ l = [] := by
  rw [String.ext_iff]

lemma mem_dropWhile_of_neg {p : Char → Bool} {l : List Char} {c : Char}
    (hm : c ∈ l) (hc : p c = false) : c ∈ l.dropWhile p := by
  induction l with
  | nil => simp at hm
  | cons x xs ih =>
    rw [List.dropWhile_cons]
    rcases List.mem_cons.mp hm with h | h
    · subst h; simp [hc]
    · by_cases hx : p x
      · simp [hx, ih h]
      · simp [hx, List.mem_cons, h]

lemma trimWS_eq_nil_iff (l : List Char) :
    trimWS l = [] ↔ ∀ c ∈ l, isWSChar c = true := by
  unfold trimWS
  simp only [List.reverse_eq_nil_iff, List.dropWhile_eq_nil_iff,
    List.mem_reverse]
  constructor
  · intro h c hc
    by_cases hw : isWSChar c
    · exact hw
    · exact absurd (h c (mem_dropWhile_of_neg hc (by simpa using hw)))
        (by simpa using hw)
  · intro h c hc
    exact h c ((List.dropWhile_sublist _).mem hc)

lemma mem_trimWS {l : List Char} {c : Char} (hm : c ∈ l)
    (hc : isWSChar c = false) : c ∈ trimWS l := by
  unfold trimWS
  rw [List.mem_reverse]
  exact mem_dropWhile_of_neg (List.mem_reverse.mpr (mem_dropWhile_of_neg hm hc)) hc

lemma mem_stripAfterNLAux {c : Char} (hc : isSpaceTab c = false) :
    ∀ (b : Bool) (l : List Char), c ∈ l → c ∈ stripAfterNLAux b l := by
  intro b l
  induction l generalizing b with
  | nil => intro h; simp at h
  | cons x xs ih =>
    intro hm
    rw [stripAfterNLAux]
    rcases List.mem_cons.mp hm with h | h
    · subst h
      by_cases hnl : c = '\n'
      · simp [hnl]
      · rw [if_neg hnl, if_neg (by simp [hc] : ¬((b && isSpaceTab c) = true))]
        exact List.mem_cons_self _ _
    · by_cases hnl : x = '\n'
      · simp only [if_pos hnl]
        exact List.mem_cons_of_mem _ (ih _ h)
      · by_cases hd : b && isSpaceTab x
        · simp only [if_neg hnl, if_pos hd]
          exact ih _ h
        · simp only [if_neg hnl, if_neg hd]
          exact List.mem_cons_of_mem _ (ih _ h)

lemma mem_stripSTBeforeNL {l : List Char} {c : Char} (hm : c ∈ l)
    (hc : isSpaceTab c = false) : c ∈ stripSTBeforeNL l := by
  unfold stripSTBeforeNL
  rw [List.mem_reverse]
  exact mem_stripAfterNLAux hc _ _ (List.mem_reverse.mpr hm)

lemma isSpaceTab_eq_false_of_ws {c : Char} (h : isWSChar c = false) :
    isSpaceTab c = false := by
  unfold isWSChar at h
  unfold isSpaceTab
  rcases Bool.or_eq_false_iff.mp h with ⟨h1, _⟩
  exact h1

lemma trimWS_ne_nil_of_mem {l : List Char} {c : Char} (hm : c ∈ l)
    (hc : isWSChar c = false) : trimWS l ≠ [] := by
  intro h
  exact absurd ((trimWS_eq_nil_iff l).mp h c hm) (by simp [hc])

lemma splitNLChars_ne_nil (l : List Char) : splitNLChars l ≠ [] := by
  induction l with
  | nil => simp [splitNLChars]
  | cons c cs ih =>
    rw [splitNLChars]
    by_cases h : c = '\n'
    · simp [h]
    · rw [if_neg h]
      rcases hs : splitNLChars cs with _ | ⟨x, xs⟩
      · simp
      · simp

lemma no_nl_mem_splitNLChars (l : List Char) :
    ∀ x ∈ splitNLChars l, '\n' ∉ x := by
  induction l with
  | nil => simp [splitNLChars]
  | cons c cs ih =>
    intro x hx
    rw [splitNLChars] at hx
    by_cases h : c = '\n'
    · rw [if_pos h] at hx
      rcases List.mem_cons.mp hx with h2 | h2
      · subst h2; simp
      · exact ih x h2
    · rw [if_neg h] at hx
      rcases hs : splitNLChars cs with _ | ⟨y, ys⟩
      · exact absurd hs (splitNLChars_ne_nil cs)
      · rw [hs] at hx
        rcases List.mem_cons.mp hx with h2 | h2
        · subst h2
          intro hmem
          rcases List.mem_cons.mp hmem with h3 | h3
          · exact h h3.symm
          · exact ih y (hs ▸ List.mem_cons_self y ys) h3
        · exact ih x (hs ▸ List.mem_cons_of_mem y h2)

/-- Character-level `join("\n")`. -/
def charJoinNL : List (List Char) → List Char
  | [] => []
  | [l] => l
  | l :: l2 :: rest => l ++ '\n' :: charJoinNL (l2 :: rest)

lemma splitNLChars_no_nl {l : List Char} (h : '\n' ∉ l) :
    splitNLChars l = [l] := by
  induction l with
  | nil => simp [splitNLChars]
  | cons c cs ih =>
    rw [splitNLChars, if_neg (by intro hc; exact h (hc ▸ List.mem_cons_self c cs))]
    rw [ih (fun hm => h (List.mem_cons_of_mem c hm))]

lemma splitNLChars_append_nl {l r : List Char} (h : '\n' ∉ l) :
    splitNLChars (l ++ '\n' :: r) = l :: splitNLChars r := by
  induction l with
  | nil => simp [splitNLChars]
  | cons c cs ih =>
    rw [List.cons_append, splitNLChars,
      if_neg (by intro hc; exact h (hc ▸ List.mem_cons_self c cs))]
    rw [ih (fun hm => h (List.mem_cons_of_mem c hm))]

lemma splitNLChars_charJoinNL :
    ∀ ls : List (List Char), ls ≠ [] → (∀ l ∈ ls, '\n' ∉ l) →
      splitNLChars (charJoinNL ls) = ls := by
  intro ls
  induction ls with
  | nil => intro h; exact absurd rfl h
  | cons l rest ih =>
    intro _ hnl
    rcases rest with _ | ⟨l2, rest2⟩
    · exact splitNLChars_no_nl (hnl l (List.mem_cons_self _ _))
    · rw [charJoinNL, splitNLChars_append_nl (hnl l (List.mem_cons_self _ _))]
      rw [ih (by simp) (fun x hx => hnl x (List.mem_cons_of_mem l hx))]

lemma joinNL_data :
    ∀ ss : List String, (joinNL ss).data = charJoinNL (ss.map String.data) := by
  intro ss
  induction ss with
  | nil => rfl
  | cons s rest ih =>
    rcases rest with _ | ⟨s2, rest2⟩
    · rfl
    · rw [joinNL, List.map_cons, List.map_cons, charJoinNL]
      rw [String.data_append, String.data_append, ih, List.map_cons]
      simp

lemma data_mk (l : List Char) : (String.mk l).data = l := rfl

lemma mk_data (s : String) : String.mk s.data = s := rfl

lemma takeElemParents_eq_filterMap :
    ∀ l : List Step, (∀ s ∈ l, (Step.parent s).isSome) →
      takeElemParents l = l.filterMap Step.parent := by
  intro l
  induction l with
  | nil => intro _; rfl
  | cons s rest ih =>
    intro h
    rcases hp : s.parent with _ | e
    · exact absurd (hp ▸ h s (List.mem_cons_self _ _)) (by simp)
    · rw [takeElemParents, hp, List.filterMap_cons, hp]
      rw [ih (fun x hx => h x (List.mem_cons_of_mem s hx))]

lemma if_zero_eq_max (n : Nat) : (if n = 0 then 1 else n) = max 1 n := by
  split <;> omega

lemma computeListInfo_eq_spec (bd : BlockData) (above : List Step)
    (htag : strToLower bd.props.tag = "li")
    (hne : bd.inSteps ≠ [])
    (hsome : ∀ s ∈ bd.inSteps, (Step.parent s).isSome) :
    computeListInfo bd above =
      some { depth := specC4Depth bd, ordered := specC4Ordered bd above,
             index := specC4Index bd above } := by
  rcases hsteps : bd.inSteps with _ | ⟨s, rest⟩
  · exact absurd hsteps hne
  · have hmem : ∀ x ∈ (s :: rest).dropLast, (Step.parent x).isSome := by
      intro x hx
      exact hsome x (hsteps ▸ (List.dropLast_sublist _).mem hx)
    have hwalk : ancWalk bd above = (s :: rest).dropLast.filterMap Step.parent := by
      unfold ancWalk
      rw [hsteps]
      exact takeElemParents_eq_filterMap _ hmem
    have hdepth : specC4Depth bd =
        max 1 (((s :: rest).dropLast.filterMap Step.parent).countP isListTag) := by
      unfold specC4Depth betweenRootAncestors
      rw [hsteps]
    have hord : specC4Ordered bd above =
        (match (s :: rest).dropLast.filterMap Step.parent with
          | e :: _ => decide (strToLower e.tag = "ol")
          | [] => false) := by
      rcases hp : s.parent with _ | e
      · exact absurd (hp ▸ hsome s (hsteps ▸ List.mem_cons_self _ _)) (by simp)
      · rcases rest with _ | ⟨r, rest2⟩
        · unfold specC4Ordered
          rw [hsteps]
          simp
        · unfold specC4Ordered specC4OrderedOrig parentStepOf
          rw [hsteps]
          simp only [List.dropLast_cons₂, List.filterMap_cons, hp,
            List.length_cons]
          simp
    unfold computeListInfo
    rw [if_pos htag, hwalk, hdepth, hord]
    unfold specC4Index parentStepOf
    rw [hsteps]
    simp only [if_zero_eq_max]

/-- The good-segment predicate of claim C10. -/
def goodSeg (seg : Segment) : Prop :=
  trimStr seg.text ≠ "" ∧ seg.blockTag ≠ none

/-- The walker-state invariant: all flushed segments are good, and a buffer
with non-whitespace content implies a current block is set. -/
def walkInv (st : WalkSt) : Prop :=
  (∀ seg ∈ st.segments, goodSeg seg) ∧
    (trimWS st.buffer ≠ [] → st.currentBlock ≠ none)

lemma flushW_inv {above : List Step} {st : WalkSt} (h : walkInv st) :
    walkInv (flushW above st) ∧
      (flushW above st).currentBlock = st.currentBlock := by
  obtain ⟨hsegs, hbuf⟩ := h
  unfold flushW
  by_cases he : (trimWS st.buffer).isEmpty
  · rw [if_pos he]
    exact ⟨⟨hsegs, by intro hx; exact absurd rfl hx⟩, rfl⟩
  · rw [if_neg he]
    refine ⟨⟨?_, by intro hx; exact absurd rfl hx⟩, rfl⟩
    intro seg hseg
    have hne : trimWS st.buffer ≠ [] := by
      intro hx; rw [hx] at he; exact he rfl
    rcases List.mem_append.mp hseg with hm | hm
    · exact hsegs seg hm
    · rw [List.mem_singleton] at hm
      subst hm
      have hex : ∃ c ∈ st.buffer, isWSChar c = false := by
        by_contra hall
        push_neg at hall
        exact hne ((trimWS_eq_nil_iff _).mpr (by
          intro c hc
          simpa using hall c hc))
      obtain ⟨c, hc, hcw⟩ := hex
      have hst : isSpaceTab c = false := isSpaceTab_eq_false_of_ws hcw
      have h3 : c ∈ stripSTAfterNL (stripSTBeforeNL (trimWS st.buffer)) :=
        mem_stripAfterNLAux hst _ _
          (mem_stripSTBeforeNL (mem_trimWS hc hcw) hst)
      constructor
      · show trimStr (String.mk _) ≠ ""
        unfold trimStr
        simp only [data_mk]
        intro hcontra
        exact trimWS_ne_nil_of_mem h3 hcw ((mkStr_eq_empty_iff _).mp hcontra)
      · have hcb : st.currentBlock ≠ none := hbuf hne
        rcases hcb2 : st.currentBlock with _ | bd
        · exact absurd hcb2 hcb
        · simp [hcb2]

lemma stepW_inv {root : ElemProps} {above : List Step} {st : WalkSt}
    {h : TextHit} (hinv : walkInv st) : walkInv (stepW root above st h) := by
  obtain ⟨hsegs, hbuf⟩ := hinv
  have hflush := @flushW_inv above st ⟨hsegs, hbuf⟩
  obtain ⟨⟨hfsegs, _⟩, _⟩ := hflush
  unfold stepW
  by_cases ht : (normChars h.raw.data).isEmpty
  · rw [if_pos ht]; exact ⟨hsegs, hbuf⟩
  · rw [if_neg ht]
    rcases hcb : st.currentBlock with _ | cb
    · refine ⟨?_, ?_⟩
      · intro seg hseg
        simp only [hcb] at hseg
        exact hfsegs seg hseg
      · simp [hcb]
    · by_cases hpath : cb.path = (findBlock h.ctx h.path root).path
      · by_cases hbr : hasExplicitLineBreakBefore h.ctx
        · refine ⟨?_, ?_⟩
          · intro seg hseg
            simp only [hcb, if_pos hpath, if_pos hbr] at hseg
            exact hsegs seg hseg
          · simp [hcb, if_pos hpath, if_pos hbr]
        · refine ⟨?_, ?_⟩
          · intro seg hseg
            simp only [hcb, if_pos hpath, if_neg hbr] at hseg
            exact hsegs seg hseg
          · simp [hcb, if_pos hpath, if_neg hbr]
      · refine ⟨?_, ?_⟩
        · intro seg hseg
          simp only [hcb, if_neg hpath] at hseg
          exact hfsegs seg hseg
        · simp [hcb, if_neg hpath]

lemma foldl_stepW_inv (root : ElemProps) (above : List Step) :
    ∀ (hits : List TextHit) (st : WalkSt), walkInv st →
      walkInv (hits.foldl (stepW root above) st) := by
  intro hits
  induction hits with
  | nil => intro st h; exact h
  | cons hd tl ih =>
    intro st h
    exact ih _ (stepW_inv h)

lemma walkSegments_good (root : ElemProps) (kids : Dom) (above : List Step) :
    ∀ seg ∈ walkSegments root kids above, goodSeg seg := by
  intro seg hseg
  unfold walkSegments at hseg
  have hinit : walkInv { segments := [], buffer := [], currentBlock := none } :=
    ⟨by intro s hs; simp at hs, by intro hx; exact absurd rfl hx⟩
  have hfold := foldl_stepW_inv root above
    (((collect root [] [] kids [] 0)).filter (acceptHit above)) _ hinit
  have hfin := (@flushW_inv above _ hfold).1.1
  exact hfin seg hseg

/-! ## The claims -/

lemma trimStr_eq_empty_iff (s : String) :
    trimStr s = "" ↔ (trimWS s.data).isEmpty = true := by
  unfold trimStr
  rw [mkStr_eq_empty_iff, List.isEmpty_iff]

/-- C1: for every root the fallback ladder returns exactly one result
(totality of `extractTextContent`); the strategy is `dom_tree_walker` iff the
tree-walker text is non-empty after trimming, `inner_text` iff the walker text
is blank, the root is an HTMLElement and its normalized `innerText` is
non-empty, and `text_content` otherwise, in which case the text is the
normalized `textContent` regardless of emptiness (the final tier cannot
fail). -/
theorem C1_fallback_ladder :
    ∀ (root : ElemProps) (kids : Dom) (above : List Step),
      ((extractTextContent root kids above).strategy = Strategy.dom_tree_walker ↔
        trimStr (extractWithTreeWalker root kids above) ≠ "") ∧
      ((extractTextContent root kids above).strategy = Strategy.inner_text ↔
        (trimStr (extractWithTreeWalker root kids above) = "" ∧
          root.isHTML = true ∧ normalizeWhitespace root.innerText ≠ "")) ∧
      ((extractTextContent root kids above).strategy = Strategy.text_content ↔
        (trimStr (extractWithTreeWalker root kids above) = "" ∧
          (root.isHTML = false ∨ normalizeWhitespace root.innerText = ""))) ∧
      ((extractTextContent root kids above).strategy = Strategy.text_content →
        (extractTextContent root kids above).text =
          normalizeWhitespace (String.mk (textContentF kids))) := by
  intro root kids above
  have hw : (trimStr (extractWithTreeWalker root kids above) = "") ↔
      (trimWS (extractWithTreeWalker root kids above).data).isEmpty = true :=
    trimStr_eq_empty_iff _
  have hi : (normalizeWhitespace root.innerText = "") ↔
      (normChars root.innerText.data).isEmpty = true := by
    unfold normalizeWhitespace
    rw [mkStr_eq_empty_iff, List.isEmpty_iff]
  unfold extractTextContent
  by_cases h1 : (trimWS (extractWithTreeWalker root kids above).data).isEmpty = false
  · rw [if_pos h1]
    have hA : trimStr (extractWithTreeWalker root kids above) ≠ "" := by
      simp [hw, h1]
    refine ⟨?_, ?_, ?_, ?_⟩ <;> simp [hA]
  · have h1t : (trimWS (extractWithTreeWalker root kids above).data).isEmpty = true := by
      rcases hb : (trimWS (extractWithTreeWalker root kids above).data).isEmpty
      · exact absurd hb h1
      · rfl
    rw [if_neg h1]
    have hA : trimStr (extractWithTreeWalker root kids above) = "" := by
      simp [hw, h1t]
    by_cases h2 : root.isHTML
    · rw [if_pos h2]
      by_cases h3 : (normChars root.innerText.data).isEmpty = false
      · rw [if_pos h3]
        have hB : normalizeWhitespace root.innerText ≠ "" := by
          simp [hi, h3]
        refine ⟨?_, ?_, ?_, ?_⟩ <;> simp [hA, hB, h2]
      · have h3t : (normChars root.innerText.data).isEmpty = true := by
          rcases hb : (normChars root.innerText.data).isEmpty
          · exact absurd hb h3
          · rfl
        rw [if_neg h3]
        have hB : normalizeWhitespace root.innerText = "" := by
          simp [hi, h3t]
        have hB2 : normChars root.innerText.data = [] := List.isEmpty_iff.mp h3t
        have hmk : String.mk ([] : List Char) = "" := rfl
        refine ⟨?_, ?_, ?_, ?_⟩ <;>
          simp [hA, hB, h2, normalizeWhitespace, hB2, hmk]
    · rw [if_neg h2]
      have h2f : root.isHTML = false := by
        rcases hb : root.isHTML
        · rfl
        · exact absurd hb h2
      refine ⟨?_, ?_, ?_, ?_⟩ <;> simp [hA, h2f, normalizeWhitespace]

/-- Witness for C1: on an empty `<div>` the ladder reaches the final tier and
the result text is the normalized `textContent`. -/
theorem C1_fallback_ladder_witness :
    (extractTextContent (mkEl ("div")) Dom.nil []).text =
      normalizeWhitespace (String.mk (textContentF Dom.nil)) :=
  (C1_fallback_ladder (mkEl ("div")) Dom.nil []).2.2.2 (by decide)

/-- C2: on the DOM
`<div><h1>Title</h1><p>Hello <br/>world</p><ul><li>A</li><li>B</li></ul></div>`
with every node visible, extraction returns strategy `dom_tree_walker` and the
text `"# Title\n\nHello\nworld\n\n- A\n- B"`: the heading gets the `# `
marker, the `<br>` becomes one newline inside the paragraph, blocks are
separated by a blank line and the two same-depth list items are joined by a
single newline. -/
theorem C2_end_to_end :
    extractTextContent exDivC2 exKidsC2 [] =
      { text := "# Title\n\nHello\nworld\n\n- A\n- B",
        strategy := Strategy.dom_tree_walker, adapter := none } := by
  decide

/-- Counterexample to C3 as stated: an `<svg>` ancestor (an element that is
not an HTMLElement) with computed `display: none` carries a hidden signal of
the claim, yet the visibility filter classifies the text node under it
visible and its text reaches the `dom_tree_walker` output — the source checks
the hidden signals only on HTMLElement ancestors. -/
theorem C3_counterexample :
    specHiddenSignal exSvgHidden = true ∧
    isNodeVisible [some exSvgHidden, some (mkEl ("div"))] = true ∧
    extractTextContent (mkEl ("div")) exSvgKids [] =
      { text := "x", strategy := Strategy.dom_tree_walker, adapter := none } := by
  decide

lemma isElementHidden_of_signal {e : ElemProps} (hh : e.isHTML = true)
    (hs : specHiddenSignal e = true) : isElementHidden e = true := by
  unfold specHiddenSignal at hs
  unfold isElementHidden
  rw [hh]
  rcases Bool.or_eq_true_iff.mp hs with h | h
  · rcases Bool.or_eq_true_iff.mp h with h | h
    · rcases Bool.or_eq_true_iff.mp h with h | h
      · simp [h]
      · simp only [decide_eq_true_iff] at h
        simp [h]
    · simp only [decide_eq_true_iff] at h
      by_cases hhid : e.hidden <;> by_cases ha : e.ariaHidden = some ("true") <;>
        simp [hhid, ha, h]
  · simp only [decide_eq_true_iff] at h
    by_cases hhid : e.hidden <;> by_cases ha : e.ariaHidden = some ("true") <;>
      simp [hhid, ha, h]

/-- C3 (amended): for every text node that has an ancestor HTMLElement —
preceded in its parent chain only by element nodes — whose `hidden` flag,
`aria-hidden="true"`, computed `display: none` or computed
`visibility: hidden` signal holds, the visibility filter classifies the node
invisible, and the walker's `acceptNode` filter rejects the node, so its text
contributes nothing to the `dom_tree_walker` output (which is built from the
accepted nodes only). -/
theorem C3_hidden_ancestor :
    (∀ (pre post : List (Option ElemProps)) (e : ElemProps),
      (∀ x ∈ pre, x ≠ none) → e.isHTML = true → specHiddenSignal e = true →
      isNodeVisible (pre ++ some e :: post) = false) ∧
    (∀ (above : List Step) (h : TextHit) (pre post : List (Option ElemProps))
      (e : ElemProps),
      (∀ x ∈ pre, x ≠ none) → e.isHTML = true → specHiddenSignal e = true →
      h.ctx.map Step.parent ++ above.map Step.parent = pre ++ some e :: post →
      acceptHit above h = false) := by
  have part1 : ∀ (pre post : List (Option ElemProps)) (e : ElemProps),
      (∀ x ∈ pre, x ≠ none) → e.isHTML = true → specHiddenSignal e = true →
      isNodeVisible (pre ++ some e :: post) = false := by
    intro pre post e hpre hh hs
    induction pre with
    | nil =>
      rw [List.nil_append, isNodeVisible,
        if_pos (isElementHidden_of_signal hh hs)]
    | cons x xs ih =>
      rcases x with _ | p
      · exact absurd rfl (hpre none (List.mem_cons_self _ _))
      · rw [List.cons_append, isNodeVisible]
        by_cases hp : isElementHidden p = true
        · rw [if_pos hp]
        · rw [if_neg hp]
          exact ih (fun y hy => hpre y (List.mem_cons_of_mem _ hy))
  refine ⟨part1, ?_⟩
  intro above h pre post e hpre hh hs hchain
  unfold acceptHit
  rw [hchain, part1 pre post e hpre hh hs]
  simp

/-- Witness for C3: a text node directly under a `<div hidden>` is rejected
by the walker's filter. -/
theorem C3_hidden_ancestor_witness :
    acceptHit [] exHiddenHit = false :=
  C3_hidden_ancestor.2 [] exHiddenHit [] [] exHiddenDiv
    (by intro x hx; simp at hx) (by decide) (by decide) (by decide)

/-- The block data the walker computes for the single `<li>` child of the
`<ol>` extraction root (its context is the root step alone). -/
def exOlLiBD : BlockData :=
  { path := [0], props := mkEl ("li"),
    inSteps := [{ parent := some exOlRoot, before := [] }] }

/-- Counterexample to C4 as stated: when the extraction root is itself the
`<ol>`, the `<li>`'s immediate parent element is an `ol`, yet `computeListInfo`
reports `ordered = false` (its ancestor climb stops at the root before
looking at it), so the item is rendered `"- A"` instead of `"1. A"` — the
claim's "ordered is true iff the immediate parent is an ol" fails. -/
theorem C4_counterexample :
    findBlock [{ parent := some (mkEl ("li")), before := [] },
               { parent := some exOlRoot, before := [] }] [0, 0] exOlRoot =
      exOlLiBD ∧
    specC4OrderedOrig exOlLiBD [] = true ∧
    computeListInfo exOlLiBD [] =
      some { depth := 1, ordered := false, index := some 1 } ∧
    walkSegments exOlRoot exOlKids [] =
      [{ text := "A", blockTag := some ("li"),
         listInfo := some { depth := 1, ordered := false, index := some 1 } }] ∧
    (walkSegments exOlRoot exOlKids []).map formatSegment = ["- A"] := by
  decide

/-- C4 (amended): for every `li` block strictly below the extraction root
(in-tree context non-empty, all in-tree parents elements), `computeListInfo`
returns depth = the count of `ul`/`ol` ancestors strictly between the `li`
and the root with a minimum of 1, ordered = true iff the immediate parent is
an `ol` **that is not the extraction root itself**, and index = the 1-based
position among the parent's `li` element children when the parent is an `ol`
and null otherwise; in particular three `<li>` children of a single `<ol>`
under a `<div>` root receive indexes 1, 2, 3 and format to
`"1. A"`, `"2. B"`, `"3. C"`. -/
theorem C4_list_info :
    (∀ (bd : BlockData) (above : List Step),
      strToLower bd.props.tag = "li" → bd.inSteps ≠ [] →
      (∀ s ∈ bd.inSteps, (Step.parent s).isSome) →
      computeListInfo bd above =
        some { depth := specC4Depth bd, ordered := specC4Ordered bd above,
               index := specC4Index bd above }) ∧
    walkSegments exDivOlRoot exDivOlKids [] =
      [{ text := "A", blockTag := some ("li"),
         listInfo := some { depth := 1, ordered := true, index := some 1 } },
       { text := "B", blockTag := some ("li"),
         listInfo := some { depth := 1, ordered := true, index := some 2 } },
       { text := "C", blockTag := some ("li"),
         listInfo := some { depth := 1, ordered := true, index := some 3 } }] ∧
    (walkSegments exDivOlRoot exDivOlKids []).map formatSegment =
      ["1. A", "2. B", "3. C"] :=
  ⟨computeListInfo_eq_spec, by decide, by decide⟩

/-- Witness for C4: the first `<li>` of the three-item `<ol>` satisfies the
amended list-info specification. -/
theorem C4_list_info_witness :
    computeListInfo exDivOlLiBD [] =
      some { depth := specC4Depth exDivOlLiBD,
             ordered := specC4Ordered exDivOlLiBD [],
             index := specC4Index exDivOlLiBD [] } :=
  C4_list_info.1 exDivOlLiBD [] (by decide) (by decide) (by decide)

/-- C5: between consecutive emitted segments the formatter inserts a blank
line unless both are `li` of equal list depth or both are `blockquote`; two
`li` segments of different depth do get a blank line; two blockquote
segments are joined by a single newline while a blockquote followed by a
paragraph gets a blank line. -/
theorem C5_blank_line_rule :
    (∀ (prev next : Segment),
      shouldInsertBlankLine (some prev) next = false ↔
        ((prev.blockTag = some ("li") ∧ next.blockTag = some ("li") ∧
          (prev.listInfo.map ListInfo.depth).getD 1 =
            (next.listInfo.map ListInfo.depth).getD 1) ∨
         (prev.blockTag = some ("blockquote") ∧
          next.blockTag = some ("blockquote")))) ∧
    joinNL (assembleAux none []
      [{ text := "a", blockTag := some ("blockquote"), listInfo := none },
       { text := "b", blockTag := some ("blockquote"), listInfo := none }]) =
      "> a\n> b" ∧
    joinNL (assembleAux none []
      [{ text := "a", blockTag := some ("blockquote"), listInfo := none },
       { text := "b", blockTag := some ("p"), listInfo := none }]) =
      "> a\n\nb" ∧
    joinNL (assembleAux none []
      [{ text := "A", blockTag := some ("li"),
         listInfo := some { depth := 1, ordered := false, index := none } },
       { text := "B", blockTag := some ("li"),
         listInfo := some { depth := 2, ordered := false, index := none } }]) =
      "- A\n\n  - B" := by
  refine ⟨?_, by decide, by decide, by decide⟩
  intro prev next
  unfold shouldInsertBlankLine
  dsimp only
  split_ifs with hli hbq
  · simp only [Bool.and_eq_true, decide_eq_true_iff] at hli
    obtain ⟨h1, h2⟩ := hli
    simp [h1, h2, bne_eq_false_iff_eq]
  · simp only [Bool.and_eq_true, decide_eq_true_iff] at hbq
    obtain ⟨h1, h2⟩ := hbq
    simp [h1, h2]
  · simp only [Bool.and_eq_true, decide_eq_true_iff, not_and] at hli hbq
    constructor
    · intro h; exact absurd h (by simp)
    · intro h
      rcases h with ⟨h1, h2, _⟩ | ⟨h1, h2⟩
      · simp [h1, h2] at hli
      · simp [h1, h2] at hbq

/-- Counterexample to C6 as stated: an `<h1>` segment whose text is `"#x"`
already starts with one `#`, so the claim says the prefix is skipped and the
output is `"#x"`; the source only skips when the text starts with the hashes
followed by a space and outputs `"# #x"`. -/
theorem C6_counterexample :
    formatSegment { text := "#x", blockTag := some ("h1"), listInfo := none } =
      "# #x" ∧
    specC6HeadingFormat 1 ("#x") = "#x" := by
  decide

/-- C6 (amended): for every heading segment of level L the formatter outputs
L `#` characters, a space and the text, except that the prefix is skipped
when the text already starts with that many `#` **followed by a space**; in
particular an `<h2>` segment with text `"Pricing"` formats to exactly
`"## Pricing"`. -/
theorem C6_heading_format :
    (∀ (t : String) (li : Option ListInfo),
      formatSegment { text := t, blockTag := some ("h1"), listInfo := li } =
        if strStartsWith t (hashMarks 1 ++ " ") then t
        else (hashMarks 1 ++ " ") ++ t) ∧
    (∀ (t : String) (li : Option ListInfo),
      formatSegment { text := t, blockTag := some ("h2"), listInfo := li } =
        if strStartsWith t (hashMarks 2 ++ " ") then t
        else (hashMarks 2 ++ " ") ++ t) ∧
    (∀ (t : String) (li : Option ListInfo),
      formatSegment { text := t, blockTag := some ("h3"), listInfo := li } =
        if strStartsWith t (hashMarks 3 ++ " ") then t
        else (hashMarks 3 ++ " ") ++ t) ∧
    (∀ (t : String) (li : Option ListInfo),
      formatSegment { text := t, blockTag := some ("h4"), listInfo := li } =
        if strStartsWith t (hashMarks 4 ++ " ") then t
        else (hashMarks 4 ++ " ") ++ t) ∧
    (∀ (t : String) (li : Option ListInfo),
      formatSegment { text := t, blockTag := some ("h5"), listInfo := li } =
        if strStartsWith t (hashMarks 5 ++ " ") then t
        else (hashMarks 5 ++ " ") ++ t) ∧
    (∀ (t : String) (li : Option ListInfo),
      formatSegment { text := t, blockTag := some ("h6"), listInfo := li } =
        if strStartsWith t (hashMarks 6 ++ " ") then t
        else (hashMarks 6 ++ " ") ++ t) ∧
    formatSegment { text := "Pricing", blockTag := some ("h2"), listInfo := none } =
      "## Pricing" :=
  ⟨fun t li => rfl, fun t li => rfl, fun t li => rfl, fun t li => rfl,
   fun t li => rfl, fun t li => rfl, by decide⟩

lemma splitNL_joinNL (ss : List String) (hne : ss ≠ [])
    (hnl : ∀ s ∈ ss, '\n' ∉ s.data) : splitNL (joinNL ss) = ss := by
  unfold splitNL
  rw [joinNL_data, splitNLChars_charJoinNL (ss.map String.data)
    (by simpa using hne)
    (by
      intro l hl
      obtain ⟨s, hs, rfl⟩ := List.mem_map.mp hl
      exact hnl s hs)]
  rw [List.map_map]
  have : (String.mk ∘ String.data) = id := by
    funext s
    exact mk_data s
  rw [this, List.map_id]

/-- Counterexample to C7 as stated: a blockquote segment whose single line
already starts with `"> "` is left unchanged by the source (`"> a"`), while
the claim's unconditional prefixing would produce `"> > a"`. -/
theorem C7_counterexample :
    formatSegment
      { text := "> a", blockTag := some ("blockquote"), listInfo := none } =
      "> a" ∧
    specC7QuoteFormat ("> a") = "> > a" := by
  decide

/-- C7 (amended): the formatter prefixes every line of a blockquote
segment's text with `"> "` **unless the line already starts with `"> "`**,
which is kept unchanged; consequently every line of the formatted output
starts with `"> "`. -/
theorem C7_blockquote_format :
    (∀ (t : String) (li : Option ListInfo),
      formatSegment { text := t, blockTag := some ("blockquote"), listInfo := li } =
        joinNL ((splitNL t).map (fun line =>
          if strStartsWith line ("> ") then line else "> " ++ line))) ∧
    (∀ (t : String) (li : Option ListInfo),
      ((splitNL (formatSegment
          { text := t, blockTag := some ("blockquote"), listInfo := li })).all
        (fun line => strStartsWith line ("> "))) = true) := by
  refine ⟨fun t li => rfl, ?_⟩
  intro t li
  have heq : formatSegment
      { text := t, blockTag := some ("blockquote"), listInfo := li } =
      joinNL ((splitNL t).map (fun line =>
        if strStartsWith line ("> ") then line else "> " ++ line)) := rfl
  rw [heq]
  have hne : ((splitNL t).map (fun line =>
      if strStartsWith line ("> ") then line else "> " ++ line)) ≠ [] := by
    intro hx
    have h0 : splitNL t = [] := List.map_eq_nil_iff.mp hx
    unfold splitNL at h0
    exact splitNLChars_ne_nil t.data (List.map_eq_nil_iff.mp h0)
  have hnl : ∀ s ∈ ((splitNL t).map (fun line =>
      if strStartsWith line ("> ") then line else "> " ++ line)), '\n' ∉ s.data := by
    intro s hs
    obtain ⟨line, hline, rfl⟩ := List.mem_map.mp hs
    obtain ⟨l, hl, rfl⟩ := List.mem_map.mp (by simpa [splitNL] using hline)
    have hnol : '\n' ∉ l := no_nl_mem_splitNLChars t.data l hl
    by_cases hp : strStartsWith (String.mk l) ("> ")
    · rw [if_pos hp]
      exact hnol
    · rw [if_neg hp]
      rw [String.data_append]
      intro hmem
      rcases List.mem_append.mp hmem with h | h
      · simp at h
      · exact hnol h
  rw [splitNL_joinNL _ hne hnl, List.all_eq_true]
  intro line hline
  obtain ⟨l0, hl0, rfl⟩ := List.mem_map.mp hline
  by_cases hp : strStartsWith l0 ("> ")
  · rw [if_pos hp]
    exact hp
  · rw [if_neg hp]
    unfold strStartsWith
    rw [String.data_append]
    have : ("> ").data = ['>', ' '] := rfl
    rw [this]
    simp [List.isPrefixOf]

/-- C8: when a registered adapter matches the hostname but its extract call
throws, returns null, or returns a string that is blank after trimming,
extraction falls through to the fallback ladder; the ladder itself never
reports the `site_adapter` strategy or an adapter name, and a `site_adapter`
result occurs exactly when the matched adapter returned a non-blank text,
which is passed through verbatim with the adapter's name. -/
theorem C8_adapter_fallthrough :
    (∀ (hostname name : String) (outcome : AdapterOutcome) (root : ElemProps)
      (kids : Dom) (above : List Step),
      selectAdapter hostname = some name →
      (outcome = AdapterOutcome.throws ∨ outcome = AdapterOutcome.returns none ∨
        (∃ t, outcome = AdapterOutcome.returns (some t) ∧ trimStr t = "")) →
      extractTextContentV1 hostname outcome root kids above =
        extractLadderV1 root kids above) ∧
    (∀ (root : ElemProps) (kids : Dom) (above : List Step),
      (extractLadderV1 root kids above).strategy ≠ Strategy.site_adapter ∧
      (extractLadderV1 root kids above).adapter = none) ∧
    (∀ (hostname : String) (outcome : AdapterOutcome) (root : ElemProps)
      (kids : Dom) (above : List Step),
      (extractTextContentV1 hostname outcome root kids above).strategy =
        Strategy.site_adapter →
      ∃ name t, selectAdapter hostname = some name ∧
        outcome = AdapterOutcome.returns (some t) ∧ trimStr t ≠ "" ∧
        extractTextContentV1 hostname outcome root kids above =
          { text := t, strategy := Strategy.site_adapter,
            adapter := some name }) := by
  have hladder : ∀ (root : ElemProps) (kids : Dom) (above : List Step),
      (extractLadderV1 root kids above).strategy ≠ Strategy.site_adapter ∧
      (extractLadderV1 root kids above).adapter = none := by
    intro root kids above
    unfold extractLadderV1
    split_ifs <;> simp
  refine ⟨?_, hladder, ?_⟩
  · intro hostname name outcome root kids above hsel hout
    have htry : trySiteAdapter hostname outcome = none := by
      unfold trySiteAdapter
      rw [hsel]
      rcases hout with h | h | ⟨t, h, htrim⟩
      · subst h; rfl
      · subst h; rfl
      · subst h
        have hempty : (trimWS t.data).isEmpty = true := by
          rw [List.isEmpty_iff]
          exact (mkStr_eq_empty_iff _).mp htrim
        dsimp only
        rw [if_neg (by simp [hempty])]
    unfold extractTextContentV1
    rw [htry]
  · intro hostname outcome root kids above hstrat
    rcases hsel : selectAdapter hostname with _ | name
    · have htry : trySiteAdapter hostname outcome = none := by
        unfold trySiteAdapter
        rw [hsel]
      unfold extractTextContentV1 at hstrat
      rw [htry] at hstrat
      exact absurd hstrat ((hladder root kids above).1)
    · rcases outcome with _ | t0
      · have htry : trySiteAdapter hostname AdapterOutcome.throws = none := by
          unfold trySiteAdapter
          rw [hsel]
        unfold extractTextContentV1 at hstrat
        rw [htry] at hstrat
        exact absurd hstrat ((hladder root kids above).1)
      · rcases t0 with _ | t
        · have htry : trySiteAdapter hostname
              (AdapterOutcome.returns none) = none := by
            unfold trySiteAdapter
            rw [hsel]
          unfold extractTextContentV1 at hstrat
          rw [htry] at hstrat
          exact absurd hstrat ((hladder root kids above).1)
        · by_cases hcond : (!t.isEmpty && !(trimWS t.data).isEmpty) = true
          · have htry : trySiteAdapter hostname
                (AdapterOutcome.returns (some t)) =
                some { text := t, strategy := Strategy.site_adapter,
                       adapter := some name } := by
              unfold trySiteAdapter
              rw [hsel]
              dsimp only
              rw [if_pos hcond]
            have hb := (Bool.and_eq_true _ _).mp hcond
            have hto : trimStr t ≠ "" := by
              intro hx
              have hem : (trimWS t.data).isEmpty = true := by
                rw [List.isEmpty_iff]
                exact (mkStr_eq_empty_iff _).mp hx
              rw [hem] at hb
              simp at hb
            unfold extractTextContentV1
            rw [htry]
            exact ⟨name, t, rfl, rfl, hto, rfl⟩
          · have htry : trySiteAdapter hostname
                (AdapterOutcome.returns (some t)) = none := by
              unfold trySiteAdapter
              rw [hsel]
              dsimp only
              rw [if_neg hcond]
            unfold extractTextContentV1 at hstrat
            rw [htry] at hstrat
            exact absurd hstrat ((hladder root kids above).1)

/-- Witness for C8: on `www.reddit.com` the reddit adapter matches; when its
extract call throws, the result is the plain fallback ladder's. -/
theorem C8_adapter_fallthrough_witness :
    selectAdapter ("www.reddit.com") = some ("reddit") ∧
    extractTextContentV1 ("www.reddit.com") AdapterOutcome.throws
      (mkEl ("div")) Dom.nil [] = extractLadderV1 (mkEl ("div")) Dom.nil [] :=
  ⟨by decide,
   C8_adapter_fallthrough.1 ("www.reddit.com") ("reddit")
     AdapterOutcome.throws (mkEl ("div")) Dom.nil [] (by decide) (Or.inl rfl)⟩

/-- C9: a node with no parent chain, or whose chain contains no element
nodes, is classified visible (the filter fails open); the absence of a
parent chain is never a hidden signal, and `isNodeVisible` is a total
function (it cannot throw). -/
theorem C9_detached_fails_open :
    isNodeVisible [] = true ∧
    (∀ chain : List (Option ElemProps), (∀ x ∈ chain, x = none) →
      isNodeVisible chain = true) := by
  refine ⟨rfl, ?_⟩
  intro chain h
  rcases chain with _ | ⟨x, rest⟩
  · rfl
  · have hx := h x (List.mem_cons_self _ _)
    subst hx
    rfl

/-- Witness for C9: a two-entry chain of non-element parents is visible. -/
theorem C9_detached_fails_open_witness :
    isNodeVisible [none, none] = true :=
  C9_detached_fails_open.2 [none, none] (by decide)

/-- The first segment of the end-to-end example, used as the C10 witness. -/
def exTitleSeg : Segment :=
  { text := "Title", blockTag := some ("h1"), listInfo := none }

/-- C10: every segment flushed by the block segmenter has text that is
non-empty after trimming and a non-null block tag — `findBlockAncestor`
falls back to the root element itself, so a flushed buffer always has a
current block, and the `blockTag = null` case is unreachable for
tree-walker segments. -/
theorem C10_segment_invariants :
    ∀ (root : ElemProps) (kids : Dom) (above : List Step) (seg : Segment),
      seg ∈ walkSegments root kids above →
      trimStr seg.text ≠ "" ∧ seg.blockTag ≠ none := by
  intro root kids above seg hseg
  exact walkSegments_good root kids above seg hseg

/-- Witness for C10: the `Title` segment of the end-to-end example is a
member of the walk's segment list and satisfies both invariants. -/
theorem C10_segment_invariants_witness :
    trimStr exTitleSeg.text ≠ "" ∧ exTitleSeg.blockTag ≠ none :=
  C10_segment_invariants exDivC2 exKidsC2 [] exTitleSeg (by decide)
